import Mathlib

/-!
Shallow embedding of the Ninja build-team orchestrator
(scripts/ninja-team.py): the data model, the scheduler
(ready-task selection, topological sort, build-plan optimisation), the
agent registry (reservation, discovery probes), the task executor's
resolution step, graph ingestion and the heartbeat monitor, together
with theorems settling the specification's claims about them.

Modelling conventions:
* Python `int` is modelled as `Int`; Python `//` (floor division) is
  `Int.fdiv`.
* Timestamps (`time.time()`) are modelled as `Int`-valued instants; the
  code only compares, subtracts and copies them.
* The agents dict (keyed by agent name, iterated in insertion order) is
  modelled as a `List BuildAgent` in insertion order; dict assignment is
  insert-or-replace by name.
* `list.sort(key=k, reverse=True)` / `sorted(key=k, reverse=True)`
  (stable descending sorts) are modelled by `sort_desc_by`, a stable
  insertion sort built on `List.insertionSort`.
* In-place mutation of an agent or task object is modelled by returning
  the updated record (and the updated registry list where the registry
  is affected).
-/

/-- The `BuildAgent` dataclass. The `load : float` field is omitted:
it is never read nor written after construction anywhere in the source. -/
structure BuildAgent where
  name : String
  host : String
  port : Int
  cores : Int
  status : String := "idle"
  current_task : Option String := none
  available_memory : Int := 0
  last_seen : Int
deriving DecidableEq

/-- The `BuildTask` dataclass. `assigned_agent` stores a snapshot of the
agent record (Python stores an object reference). -/
structure BuildTask where
  target : String
  directory : String
  priority : Int := 0
  dependencies : List String := []
  assigned_agent : Option BuildAgent := none
  status : String := "pending"
  start_time : Option Int := none
  end_time : Option Int := none
deriving DecidableEq

/-! ### Stable descending sort (`list.sort(key=..., reverse=True)`) -/

/-- Stable descending sort by an integer key, the model of Python's
stable `sort`/`sorted` with `reverse=True`: an element goes before every
later element whose key is not larger. -/
def sort_desc_by (key : α → Int) (l : List α) : List α :=
  List.insertionSort (fun a b => key b ≤ key a) l

instance sort_desc_total (key : α → Int) :
    IsTotal α (fun a b => key b ≤ key a) :=
  ⟨fun a b => le_total (key b) (key a)⟩

instance sort_desc_trans (key : α → Int) :
    IsTrans α (fun a b => key b ≤ key a) :=
  ⟨fun _ _ _ h1 h2 => le_trans h2 h1⟩

/-! ### Ready-task selection (`_get_next_task`) -/

/-- The eligibility test of `_get_next_task`:
`all(dep in completed_targets for dep in task.dependencies)`. -/
def deps_completed (completed_targets : List String) (t : BuildTask) : Prop :=
  ∀ d ∈ t.dependencies, d ∈ completed_targets

instance (ct : List String) : DecidablePred (deps_completed ct) := fun t =>
  inferInstanceAs (Decidable (∀ d ∈ t.dependencies, d ∈ ct))

/-- The scan-and-pop loop of `_get_next_task`: walk the (already
sorted) pending list, return the first task all of whose dependencies
are completed together with the list with that task removed. -/
def pop_first_ready (ct : List String) : List BuildTask → Option BuildTask × List BuildTask
  | [] => (none, [])
  | t :: ts =>
    if deps_completed ct t then (some t, ts)
    else
      let p := pop_first_ready ct ts
      (p.1, t :: p.2)

/-- `_get_next_task`: sort the pending list by priority (descending,
stable), form the completed-target set, and pop the first task whose
every dependency is in it; the second component is the pending list
left behind (Python mutates `self.build_tasks` in place). -/
def get_next_task (pending completed : List BuildTask) :
    Option BuildTask × List BuildTask :=
  let sorted := sort_desc_by (fun t => t.priority) pending
  let completed_targets := completed.map (fun t => t.target)
  pop_first_ready completed_targets sorted

/-! ### Agent reservation (`_reserve_agent`) -/

/-- `_reserve_agent`: filter the idle agents (in registry insertion
order), sort them by cores (descending, stable), mark the first one busy
with the task's target attached, and return it together with the updated
registry. Returns `none` and the unchanged registry when no agent is
idle. -/
def reserve_agent (agents : List BuildAgent) (task : BuildTask) :
    Option BuildAgent × List BuildAgent :=
  let idle_agents := agents.filter (fun a => a.status == "idle")
  match idle_agents with
  | [] => (none, agents)
  | _ :: _ =>
    match sort_desc_by (fun a => a.cores) idle_agents with
    | [] => (none, agents)
    | best :: _ =>
      let best' := { best with status := "busy", current_task := some task.target }
      (some best', agents.map (fun a => if a.name = best.name then best' else a))

/-! ### Task execution and resolution (`_execute_task_on_agent`, tail of `_task_executor`) -/

/-- `_execute_task_on_agent` as observed on the task record: stamp
`start_time`, status `"running"` and the assigned agent, then stamp
`end_time` and the final status from the external build's outcome.
The external build invocation (local subprocess or the simulated remote
call) is abstracted by the `success` flag; the exception path of the
source also ends with status `"failed"` and returns `False`, so it is
the `success = false` case. -/
def execute_task_on_agent (success : Bool) (start_t end_t : Int)
    (task : BuildTask) (agent : BuildAgent) : BuildTask :=
  let running := { task with start_time := some start_t, status := "running",
                             assigned_agent := some agent }
  { running with end_time := some end_t,
                 status := if success then "completed" else "failed" }

/-- The resolution step at the end of one `_task_executor` iteration:
release the agent (status `"idle"`, `current_task` cleared) and either
append the task to the completed list or halve its priority
(`task.priority //= 2`, floor division) and re-append it to the pending
list. Returns the released agent and the two updated lists. -/
def resolve_task (task : BuildTask) (agent : BuildAgent) (success : Bool)
    (pending completed : List BuildTask) :
    BuildAgent × List BuildTask × List BuildTask :=
  let released := { agent with status := "idle", current_task := none }
  if success then (released, pending, completed ++ [task])
  else (released, pending ++ [{ task with priority := Int.fdiv task.priority 2 }], completed)

/-- One full execute-and-resolve step of `_task_executor`, from the
moment a task and an agent are both held. -/
def task_executor_step (success : Bool) (start_t end_t : Int)
    (task : BuildTask) (agent : BuildAgent)
    (pending completed : List BuildTask) :
    BuildAgent × List BuildTask × List BuildTask :=
  let executed := execute_task_on_agent success start_t end_t task agent
  resolve_task executed agent success pending completed

/-! ### Heartbeat monitor (`_agent_heartbeat_monitor`, one iteration) -/

/-- The per-agent body of one `_agent_heartbeat_monitor` iteration: when
`now - last_seen > heartbeat_interval * 3`, either refresh `last_seen`
(agents whose host is `"localhost"`) or mark the agent `"unavailable"`;
otherwise leave the agent untouched. -/
def heartbeat_agent (interval now : Int) (a : BuildAgent) : BuildAgent :=
  if now - a.last_seen > interval * 3 then
    if a.host = "localhost" then { a with last_seen := now }
    else { a with status := "unavailable" }
  else a

/-- One iteration of `_agent_heartbeat_monitor` over the whole registry
(held under the lock in the source). -/
def heartbeat_step (interval now : Int) (agents : List BuildAgent) : List BuildAgent :=
  agents.map (heartbeat_agent interval now)

/-! ### String helpers

Python's `str.startswith`, slicing, `str.strip` and `str.split(':')[0]`
are modelled character-wise on `String.data` (the Lean core variants are
loop-based and do not evaluate inside the kernel; these are
extensionally the same operations). -/

/-- Python `s.startswith(pre)`. -/
def str_starts_with (s pre : String) : Bool :=
  pre.data.isPrefixOf s.data

/-- Python `s[n:]` (character slicing). -/
def str_drop (s : String) (n : Nat) : String :=
  String.mk (s.data.drop n)

/-- Python `s.strip()`: remove leading and trailing whitespace. -/
def str_trim (s : String) : String :=
  String.mk (((s.data.dropWhile Char.isWhitespace).reverse.dropWhile
    Char.isWhitespace).reverse)

/-- Python `s.split(':')[0]`: the characters before the first `':'`. -/
def str_before_colon (s : String) : String :=
  String.mk (s.data.takeWhile (fun c => c ≠ ':'))

/-! ### Agent discovery (`_probe_and_register_agent`, `_discover_from_hosts_file`) -/

/-- The capability payload a probed agent answers with: the fields
`_probe_and_register_agent` reads out of the JSON body. -/
structure AgentCaps where
  name : String
  cores : Int
  memory : Int
deriving DecidableEq

/-- Dict assignment `self.agents[agent.name] = agent`: replace in place
when the name is already registered, append otherwise. -/
def register_agent (agents : List BuildAgent) (a : BuildAgent) : List BuildAgent :=
  if agents.any (fun b => b.name == a.name) then
    agents.map (fun b => if b.name = a.name then a else b)
  else agents ++ [a]

/-- `_probe_and_register_agent`. `reply` is the (stripped) response line
received from the host, `none` when the connection, send or receive
raised (timeout, connection refused); `decode` abstracts
`json.loads` plus the three key lookups, `none` when either raises. All
exception paths fall into the handler that logs a warning and registers
nothing. -/
def probe_and_register_agent (decode : String → Option AgentCaps)
    (reply : Option String) (host : String) (port : Int) (now : Int)
    (agents : List BuildAgent) : List BuildAgent :=
  match reply with
  | none => agents
  | some response =>
    if str_starts_with response "NINJA-AGENT:" then
      match decode (str_drop response 12) with
      | none => agents
      | some caps =>
        register_agent agents
          { name := caps.name, host := host, port := port, cores := caps.cores,
            status := "idle", current_task := none,
            available_memory := caps.memory, last_seen := now }
    else agents

/-- The probe loop of `_discover_from_hosts_file`: each hosts-file entry
that survives line parsing yields one `(host, port, reply)` probe, run
in order against the registry. -/
def discover_from_hosts_file (decode : String → Option AgentCaps) (now : Int)
    (probes : List (String × Int × Option String))
    (agents : List BuildAgent) : List BuildAgent :=
  probes.foldl
    (fun ags p => probe_and_register_agent decode p.2.2 p.1 p.2.1 now ags) agents

/-! ### Graph ingestion (`parse_build_tasks`) -/

/-- Result of `parse_build_tasks`: the boolean return value, the
appended-to task list and build graph, and the files the call wrote
(`created_files` instruments the branch that generates a minimal
`build.ninja` and `placeholder.cpp` when the build file is missing). -/
structure ParseResult where
  success : Bool
  tasks : List BuildTask
  graph : List (String × List String)
  created_files : List String
deriving DecidableEq

/-- Target extraction from one line of `ninja -t targets all` output:
skip blank lines and `#` comments, take the text before the first `:`,
stripped, and skip it when empty. -/
def parse_target_line (line : String) : Option String :=
  if line ≠ "" ∧ ¬ str_starts_with line "#" then
    let target := str_trim (str_before_colon line)
    if target ≠ "" then some target else none
  else none

/-- Dict assignment `self.build_graph[target] = deps`. -/
def graph_insert (g : List (String × List String)) (target : String)
    (deps : List String) : List (String × List String) :=
  if g.any (fun p => p.1 == target) then
    g.map (fun p => if p.1 = target then (target, deps) else p)
  else g ++ [(target, deps)]

/-- The dependency list extracted from one `ninja -t query` output: all
lines after the first, stripped, blank lines dropped. -/
def query_deps (qlines : List String) : List String :=
  (qlines.drop 1).filterMap
    (fun l => if str_trim l ≠ "" then some (str_trim l) else none)

/-- The `BuildTask` constructed for one successfully queried target. -/
def query_task (build_dir target : String) (qlines : List String) : BuildTask :=
  { target := target, directory := build_dir, dependencies := query_deps qlines }

/-- The body of the per-target loop of `parse_build_tasks`: query the
dependencies of one target; on a failed query (`CalledProcessError`)
log a warning and leave the accumulators unchanged, otherwise append
the new task and graph entry. -/
def parse_query_step (build_dir : String)
    (query : String → Option (List String))
    (acc : List BuildTask × List (String × List String)) (target : String) :
    List BuildTask × List (String × List String) :=
  match query target with
  | none => acc
  | some qlines =>
    (acc.1 ++ [query_task build_dir target qlines],
     graph_insert acc.2 target (query_deps qlines))

/-- `parse_build_tasks`. External effects are inputs: `build_file_exists`
is the `os.path.exists` test for `build.ninja`; `targets_output` is the
line list of `ninja -t targets all` (`none` when the subprocess raises);
`query` gives the line list of `ninja -t query t` (`none` when that
subprocess fails, the caught `CalledProcessError`). `tasks0` and
`graph0` are the pre-existing `self.build_tasks` / `self.build_graph`
the call appends to. When the build file is missing the source writes a
minimal `build.ninja` and a `placeholder.cpp` and continues. -/
def parse_build_tasks (build_dir : String) (build_file_exists : Bool)
    (targets_output : Option (List String))
    (query : String → Option (List String))
    (tasks0 : List BuildTask) (graph0 : List (String × List String)) :
    ParseResult :=
  let created := if build_file_exists then []
    else [build_dir ++ "/build.ninja", "placeholder.cpp"]
  match targets_output with
  | none => { success := false, tasks := tasks0, graph := graph0,
              created_files := created }
  | some lines =>
    let targets := lines.filterMap parse_target_line
    let step := targets.foldl (parse_query_step build_dir query) (tasks0, graph0)
    { success := true, tasks := step.1, graph := step.2,
      created_files := created }

/-! ### Topological sort (`_topological_sort`)

The recursive `visit` closure is embedded with an explicit fuel
argument bounding the recursion depth (Python has no such bound; its
termination is what claim C8 asserts). The `overflow` flag records
whether the fuel ever ran out: `overflow = false` for the fuel actually
supplied states exactly that the Python recursion terminates within
that depth. `result` collects targets; the task objects appended by the
source are recovered at the end through the (constant) `target_to_task`
map, i.e. `lookup_task`. -/

/-- The mutable state of the `visit` traversal: `temp_visited`,
`visited` and `result` (as targets), plus the fuel-exhaustion
instrumentation flag. -/
structure TopoState where
  temp : List String
  visited : List String
  result : List String
  overflow : Bool
deriving DecidableEq

/-- `self.build_graph.get(target, [])`. -/
def graph_get (graph : List (String × List String)) (target : String) : List String :=
  match graph.find? (fun p => p.1 == target) with
  | some p => p.2
  | none => []

/-- `target_to_task[t]`: the dict comprehension keeps the last task with
a given target. -/
def lookup_task (tasks : List BuildTask) (t : String) : Option BuildTask :=
  tasks.reverse.find? (fun task => task.target == t)

/-- The `for dep in self.build_graph.get(target, [])` loop inside
`visit`: run the recursive call `f` (a partial application of `visit`)
on each dependency that is a known task target
(`if dep in target_to_task`). -/
def visit_deps (keys : List String) (f : String → TopoState → TopoState) :
    List String → TopoState → TopoState
  | [], s => s
  | dep :: rest, s =>
    visit_deps keys f rest (if dep ∈ keys then f dep s else s)

/-- The `visit` closure of `_topological_sort`: return unchanged on a
target in `temp_visited` (cycle, warning logged) or in `visited`;
otherwise mark in-progress, visit the known dependencies, then unmark,
mark visited and append the target to the result when it is a known
task target. Structurally recursive on the fuel. -/
def visit (graph : List (String × List String)) (keys : List String) :
    Nat → String → TopoState → TopoState
  | 0, _, s => { s with overflow := true }
  | fuel + 1, target, s =>
    if target ∈ s.temp then s
    else if target ∈ s.visited then s
    else
      let s1 := { s with temp := target :: s.temp }
      let s2 := visit_deps keys (visit graph keys fuel) (graph_get graph target) s1
      { s2 with temp := s2.temp.erase target,
                visited := target :: s2.visited,
                result := if target ∈ keys then s2.result ++ [target] else s2.result }

/-- The initial traversal state. -/
def topo_init : TopoState :=
  { temp := [], visited := [], result := [], overflow := false }

/-- The outer `for task in tasks: if task.target not in visited:
visit(task.target)` loop of `_topological_sort`, with recursion depth
bounded by `keys.length + 1` for each call (enough, as proved below). -/
def topo_run (tasks : List BuildTask) (graph : List (String × List String)) :
    TopoState :=
  let keys := tasks.map (fun t => t.target)
  tasks.foldl
    (fun s task =>
      if task.target ∈ s.visited then s
      else visit graph keys (keys.length + 1) task.target s)
    topo_init

/-- `_topological_sort`: the traversal's result targets mapped back to
their tasks (the source appends `target_to_task[target]` directly; the
map is constant for the whole traversal, so mapping at the end is the
same list). -/
def topological_sort (tasks : List BuildTask)
    (graph : List (String × List String)) : List BuildTask :=
  (topo_run tasks graph).result.filterMap (lookup_task tasks)

/-- The traversal invariant: the result (in order) is exactly the
visited targets that are known task targets, the visited set has no
duplicates, and no in-progress target is already visited. -/
def topo_inv (keys : List String) (s : TopoState) : Prop :=
  s.result.reverse = s.visited.filter (fun t => decide (t ∈ keys)) ∧
  s.visited.Nodup ∧
  (∀ t ∈ s.temp, ¬ t ∈ s.visited)

/-- What one (sub)traversal guarantees: the in-progress set is
restored, the invariant is preserved, the overflow flag is untouched,
the visited set only grows, and every newly visited target is a known
target that was not in progress at entry. -/
def visit_post (keys : List String) (s s' : TopoState) : Prop :=
  s'.temp = s.temp ∧ topo_inv keys s' ∧ s'.overflow = s.overflow ∧
  (∀ t, t ∈ s.visited → t ∈ s'.visited) ∧
  (∀ t, t ∈ s'.visited → t ∈ s.visited ∨ (t ∈ keys ∧ ¬ t ∈ s.temp))

/-! ### Build-plan optimisation (`optimize_build_plan`) -/

/-- The dependents count used by `optimize_build_plan`:
`sum(1 for t in self.build_graph.values() if task.target in t)` — the
number of build-graph entries whose dependency list contains the
target (the task's own entry included when it depends on itself). -/
def dependents_count (graph : List (String × List String)) (target : String) : Int :=
  ((graph.filter (fun p => decide (target ∈ p.2))).length : Int)

/-- The priority-assignment loop of `optimize_build_plan`:
`task.priority = i + (dependents_count * 10)` over the enumerated
topological order. -/
def assign_priorities (graph : List (String × List String))
    (sorted_tasks : List BuildTask) : List BuildTask :=
  sorted_tasks.enum.map
    (fun p => { p.2 with priority := (p.1 : Int) + dependents_count graph p.2.target * 10 })

/-- `optimize_build_plan`: topologically sort, assign composite
priorities, and stably sort descending by priority into the new pending
list. -/
def optimize_build_plan (tasks : List BuildTask)
    (graph : List (String × List String)) : List BuildTask :=
  sort_desc_by (fun t => t.priority)
    (assign_priorities graph (topological_sort tasks graph))

/-! ### Concrete fixtures used by witnesses and counterexamples -/

/-- A pending task with no dependencies and priority 3. -/
def task_x : BuildTask := { target := "x", directory := "bld", priority := 3 }

/-- A pending task depending on `"z"`, priority 7. -/
def task_y : BuildTask :=
  { target := "y", directory := "bld", priority := 7, dependencies := ["z"] }

/-- A pending task with no dependencies and priority 5. -/
def task_z : BuildTask := { target := "z", directory := "bld", priority := 5 }

/-- A task that depends on its own target. -/
def task_selfdep : BuildTask :=
  { target := "A", directory := "bld", dependencies := ["A"] }

/-- A task whose single dependency is not the target of any task. -/
def task_unknown_dep : BuildTask :=
  { target := "app.o", directory := "bld", dependencies := ["app.cpp"] }

/-- A task at topological rank 0 with one dependent. -/
def task_root : BuildTask := { target := "A", directory := "bld" }

/-- A task depending on `task_root`. -/
def task_leaf : BuildTask :=
  { target := "B", directory := "bld", dependencies := ["A"] }

/-- One half of a two-task dependency cycle. -/
def task_cycA : BuildTask :=
  { target := "A", directory := "bld", dependencies := ["B"] }

/-- The other half of the two-task dependency cycle. -/
def task_cycB : BuildTask :=
  { target := "B", directory := "bld", dependencies := ["A"] }

/-- The local build agent fixture. -/
def agent_local : BuildAgent :=
  { name := "node-local", host := "localhost", port := 8374, cores := 4,
    last_seen := 0 }

/-- A remote build agent fixture. -/
def agent_remote : BuildAgent :=
  { name := "worker1", host := "10.0.0.2", port := 8374, cores := 8,
    last_seen := 0 }

/-- A second idle agent with the same core count as `agent_local`. -/
def agent_tied : BuildAgent :=
  { name := "worker2", host := "10.0.0.3", port := 8374, cores := 4,
    last_seen := 0 }

/-- A query function fixture: only target `"a"` answers. -/
def query_fix : String → Option (List String) := fun t =>
  if t == "a" then some ["a:", "  input: cxx", "    s.cpp", ""] else none

/-! ### Formalisations of the spec's wording where it diverges from the code -/

/-- What C3's wording asserts (`d` counts only OTHER tasks whose
dependency set includes the target), stated over states whose build
graph is the one `parse_build_tasks` derives from the task list: every
entry of the optimised plan carries priority `rank + 10 * d`. -/
def spec_dependents_other (tasks : List BuildTask) (me : BuildTask) : Int :=
  ((tasks.filter (fun t => decide (t ≠ me ∧ me.target ∈ t.dependencies))).length : Int)

/-- Claim C3 as the spec words it. -/
def spec_claim_C3 : Prop :=
  ∀ (tasks : List BuildTask) (graph : List (String × List String)),
    graph = tasks.map (fun t => (t.target, t.dependencies)) →
    ∀ i (hi : i < (topological_sort tasks graph).length),
      ∃ t', t' ∈ optimize_build_plan tasks graph ∧
        t'.target = ((topological_sort tasks graph).get ⟨i, hi⟩).target ∧
        t'.priority =
          (i : Int) + 10 * spec_dependents_other tasks
            ((topological_sort tasks graph).get ⟨i, hi⟩)

/-- Claim C4 as the spec words it: a failed task is re-enqueued with
halved priority AND its status reverted to `"pending"`, the agent
released. -/
def spec_claim_C4 : Prop :=
  ∀ (start_t end_t : Int) (task : BuildTask) (agent : BuildAgent)
    (pending completed : List BuildTask),
    (task_executor_step false start_t end_t task agent pending completed).1.status = "idle" ∧
    (task_executor_step false start_t end_t task agent pending completed).1.current_task = none ∧
    ∃ t', (task_executor_step false start_t end_t task agent pending completed).2.1 =
        pending ++ [t'] ∧
      t'.priority = Int.fdiv task.priority 2 ∧ t'.status = "pending"

/-- Claim C6 as the spec words it: graph ingestion never fabricates
build inputs, and with no usable build-tool output (missing build file,
or every dependency query failing) it reports failure with an empty
task list and graph. -/
def spec_claim_C6 : Prop :=
  ∀ (build_dir : String) (build_file_exists : Bool)
    (targets_output : Option (List String))
    (query : String → Option (List String)),
    (parse_build_tasks build_dir build_file_exists targets_output query [] []).created_files = [] ∧
    ((build_file_exists = false ∨ (∀ t, query t = none)) →
      (parse_build_tasks build_dir build_file_exists targets_output query [] []).success = false ∧
      (parse_build_tasks build_dir build_file_exists targets_output query [] []).tasks = [] ∧
      (parse_build_tasks build_dir build_file_exists targets_output query [] []).graph = [])

/-- Claim C7 as the spec words it: on every monitor iteration the local
agent's `last_seen` is refreshed to the current time. -/
def spec_claim_C7 : Prop :=
  ∀ (interval now : Int) (a : BuildAgent),
    a.host = "localhost" → (heartbeat_agent interval now a).last_seen = now

/-- The probe-failure modes of claim C9: the connection/send/receive
raised, the reply does not carry the expected prefix, or the payload
does not decode. -/
def probe_failed (decode : String → Option AgentCaps) (reply : Option String) : Prop :=
  match reply with
  | none => True
  | some r => ¬ str_starts_with r "NINJA-AGENT:" ∨ decode (str_drop r 12) = none

/-! ## Theorems -/

/-! ### The stable descending sort -/

theorem sort_desc_by_perm (key : α → Int) (l : List α) :
    (sort_desc_by key l).Perm l :=
  List.perm_insertionSort _ l

theorem sort_desc_by_sorted (key : α → Int) (l : List α) :
    List.Sorted (fun a b => key b ≤ key a) (sort_desc_by key l) :=
  List.sorted_insertionSort _ l

/-- The head of the stable descending sort of a non-empty list is the
first element of the original list attaining the maximal key. -/
theorem sort_desc_by_head (key : α → Int) :
    ∀ (l : List α) (b : α) (rest : List α),
      sort_desc_by key l = b :: rest →
      ∃ pre post, l = pre ++ b :: post ∧
        (∀ c ∈ pre, key c < key b) ∧ (∀ c ∈ l, key c ≤ key b)
  | [], b, rest, h => by simp [sort_desc_by] at h
  | a :: l, b, rest, h => by
    rw [sort_desc_by, List.insertionSort] at h
    rcases hl : List.insertionSort (fun a b => key b ≤ key a) l with _ | ⟨h0, r0⟩
    · rw [hl] at h
      simp only [List.orderedInsert] at h
      injection h with h1 h2
      subst h1
      have hnil : l = [] := by
        have hperm := List.perm_insertionSort (fun a b => key b ≤ key a) l
        rw [hl] at hperm
        exact (List.Perm.nil_eq hperm).symm
      subst hnil
      exact ⟨[], [], rfl, by simp, by simp⟩
    · rw [hl] at h
      obtain ⟨pre, post, hdecomp, hpre, hall⟩ :=
        sort_desc_by_head key l h0 r0 hl
      simp only [List.orderedInsert] at h
      by_cases hc : key h0 ≤ key a
      · rw [if_pos hc] at h
        injection h with h1 h2
        subst h1
        refine ⟨[], l, rfl, by simp, ?_⟩
        intro c hcm
        rcases List.mem_cons.mp hcm with rfl | hcm
        · exact le_refl _
        · exact le_trans (hall c hcm) hc
      · rw [if_neg hc] at h
        injection h with h1 h2
        subst h1
        push_neg at hc
        refine ⟨a :: pre, post, by rw [hdecomp]; rfl, ?_, ?_⟩
        · intro c hcm
          rcases List.mem_cons.mp hcm with rfl | hcm
          · exact hc
          · exact hpre c hcm
        · intro c hcm
          rcases List.mem_cons.mp hcm with rfl | hcm
          · exact le_of_lt hc
          · exact hall c hcm


/-! ### C2: unknown dependencies block ready-task selection -/

/--
C2 (code evaluated at the failing input): `task_unknown_dep` depends
only on `"app.cpp"`, which is not the target of any known task, so it
is never the target of a completed task; `_get_next_task` nevertheless
demands every dependency in the completed-target set, so the task is
never selected — the unknown dependency blocks it forever, where the
spec says it must be treated as already satisfied.
-/
theorem claim_C2_bug (completed : List BuildTask)
    (h : ∀ c ∈ completed, c.target ≠ "app.cpp") :
    (get_next_task [task_unknown_dep] completed).1 = none := by
  have hsort : sort_desc_by (fun t => t.priority) [task_unknown_dep] =
      [task_unknown_dep] := rfl
  rw [get_next_task]
  simp only [hsort]
  rw [pop_first_ready]
  have hnot : ¬ deps_completed (completed.map (fun t => t.target)) task_unknown_dep := by
    intro hd
    have := hd "app.cpp" (by decide)
    rcases List.mem_map.mp this with ⟨c, hc, hct⟩
    exact h c hc hct
  rw [if_neg hnot]
  rfl

/-- C2 witness: with `task_z` completed, the task with the unknown
dependency is still not selectable. -/
theorem claim_C2_bug_witness :
    (get_next_task [task_unknown_dep] [task_z]).1 = none :=
  claim_C2_bug [task_z] (by decide)

/-! ### C4: failure resolution (priority halved, agent released, but status stays `"failed"`) -/

/--
C4 counterexample: the claim as worded is false — the re-enqueued task
of a failed execution keeps status `"failed"`; nothing in
`_task_executor` reverts it to `"pending"`.
-/
theorem claim_C4_counterexample : ¬ spec_claim_C4 := by
  intro h
  obtain ⟨-, -, t', h1, -, h3⟩ := h 0 1 task_z agent_local [] []
  have h4 := congrArg (List.map (fun t => t.status)) h1
  have h5 : ["failed"] = [t'.status] := h4
  have h6 : t'.status = "failed" := (List.cons.injEq .. ▸ h5).1.symm
  rw [h6] at h3
  exact absurd h3 (by decide)

/--
C4 (amended): on resolution the agent is always released (status
`"idle"`, `current_task` cleared); on success the task joins the
completed list with status `"completed"`; on failure it is re-enqueued
at the end of the pending list with priority `floor(p/2)` — but its
status remains `"failed"`, it is not reverted to `"pending"` — and a
second consecutive failure re-enqueues it at `floor(floor(p/2)/2)`.
-/
theorem claim_C4 (success : Bool) (start_t end_t : Int) (task : BuildTask)
    (agent : BuildAgent) (pending completed : List BuildTask) :
    (task_executor_step success start_t end_t task agent pending completed).1.status = "idle" ∧
    (task_executor_step success start_t end_t task agent pending completed).1.current_task = none ∧
    (success = true →
      (task_executor_step success start_t end_t task agent pending completed).2.1 = pending ∧
      ∃ t', (task_executor_step success start_t end_t task agent pending completed).2.2 =
          completed ++ [t'] ∧
        t'.status = "completed" ∧ t'.priority = task.priority ∧ t'.target = task.target) ∧
    (success = false →
      (task_executor_step success start_t end_t task agent pending completed).2.2 = completed ∧
      ∃ t', (task_executor_step success start_t end_t task agent pending completed).2.1 =
          pending ++ [t'] ∧
        t'.priority = Int.fdiv task.priority 2 ∧ t'.status = "failed" ∧
        t'.target = task.target ∧
        (∀ (s2 e2 : Int) (p2 c2 : List BuildTask),
          ∃ t'', (task_executor_step false s2 e2 t' agent p2 c2).2.1 = p2 ++ [t''] ∧
            t''.priority = Int.fdiv (Int.fdiv task.priority 2) 2 ∧
            t''.status = "failed")) := by
  cases success with
  | true =>
      refine ⟨rfl, rfl, ?_, ?_⟩
      · intro _
        exact ⟨rfl, _, rfl, rfl, rfl, rfl⟩
      · intro h
        exact Bool.noConfusion h
  | false =>
      refine ⟨rfl, rfl, ?_, ?_⟩
      · intro h
        exact Bool.noConfusion h
      · intro _
        refine ⟨rfl, _, rfl, rfl, rfl, rfl, ?_⟩
        intro s2 e2 p2 c2
        exact ⟨_, rfl, rfl, rfl⟩

/-- C4 witness: concrete failed execution of a priority-5 task. -/
theorem claim_C4_witness :
    (task_executor_step false 0 1 task_z agent_local [] []).1.status = "idle" ∧
    ∃ t', (task_executor_step false 0 1 task_z agent_local [] []).2.1 = [] ++ [t'] ∧
      t'.priority = 2 ∧ t'.status = "failed" := by
  obtain ⟨h1, -, -, h4⟩ := claim_C4 false 0 1 task_z agent_local [] []
  obtain ⟨-, t', h6, h7, h8, -, -⟩ := h4 rfl
  exact ⟨h1, t', h6, by rw [h7]; decide, h8⟩

/-! ### C6: graph ingestion, fabrication and failure reporting -/

/--
C6 counterexample: the claim as worded is false — when the build file
is absent, `parse_build_tasks` fabricates a minimal `build.ninja` and a
`placeholder.cpp` instead of degrading to an empty graph with a failure
result.
-/
theorem claim_C6_counterexample : ¬ spec_claim_C6 := by
  intro h
  have h1 := (h "build" false none (fun _ => none)).1
  exact absurd h1 (by decide)

/-- The per-target fold of `parse_build_tasks` appends exactly one task
per successfully queried target, in order. -/
theorem parse_fold_spec (build_dir : String)
    (query : String → Option (List String)) :
    ∀ (ts : List String) (acc : List BuildTask × List (String × List String)),
      ∃ extra, (ts.foldl (parse_query_step build_dir query) acc).1 = acc.1 ++ extra ∧
        extra.map (fun t => t.target) = ts.filter (fun t => (query t).isSome)
  | [], acc => ⟨[], by simp⟩
  | t :: ts, acc => by
    rw [List.foldl_cons, List.filter_cons]
    rcases hq : query t with - | qlines
    · have hstep : parse_query_step build_dir query acc t = acc := by
        rw [parse_query_step, hq]
      rw [hstep]
      obtain ⟨extra, h1, h2⟩ := parse_fold_spec build_dir query ts acc
      refine ⟨extra, h1, ?_⟩
      rw [h2]
      rfl
    · have hstep : parse_query_step build_dir query acc t =
          (acc.1 ++ [query_task build_dir t qlines],
           graph_insert acc.2 t (query_deps qlines)) := by
        rw [parse_query_step, hq]
      rw [hstep]
      obtain ⟨extra, h1, h2⟩ := parse_fold_spec build_dir query ts _
      refine ⟨query_task build_dir t qlines :: extra, ?_, ?_⟩
      · rw [h1]
        simp
      · rw [List.map_cons, h2]
        rfl

/--
C6 (amended): `parse_build_tasks` returns failure exactly when the
targets listing itself fails, and then leaves the task list and graph
unchanged; when the build file is absent it fabricates a minimal
`build.ninja` and `placeholder.cpp` and proceeds anyway; a failed
per-target query only omits that target; and when every query fails it
still returns success and adds no task.
-/
theorem claim_C6 (build_dir : String) (build_file_exists : Bool)
    (targets_output : Option (List String))
    (query : String → Option (List String))
    (tasks0 : List BuildTask) (graph0 : List (String × List String)) :
    ((parse_build_tasks build_dir build_file_exists targets_output query tasks0 graph0).success = false ↔
      targets_output = none) ∧
    (targets_output = none →
      (parse_build_tasks build_dir build_file_exists targets_output query tasks0 graph0).tasks = tasks0 ∧
      (parse_build_tasks build_dir build_file_exists targets_output query tasks0 graph0).graph = graph0) ∧
    ((parse_build_tasks build_dir build_file_exists targets_output query tasks0 graph0).created_files = [] ↔
      build_file_exists = true) ∧
    (∀ lines, targets_output = some lines →
      ∃ extra,
        (parse_build_tasks build_dir build_file_exists targets_output query tasks0 graph0).tasks =
          tasks0 ++ extra ∧
        extra.map (fun t => t.target) =
          (lines.filterMap parse_target_line).filter (fun t => (query t).isSome)) ∧
    ((∀ t, query t = none) →
      (parse_build_tasks build_dir build_file_exists targets_output query tasks0 graph0).tasks = tasks0) := by
  rcases targets_output with - | lines
  · refine ⟨by simp [parse_build_tasks], fun _ => ⟨rfl, rfl⟩, ?_, ?_, fun _ => rfl⟩
    · cases build_file_exists <;> simp [parse_build_tasks]
    · intro lines h
      cases h
  · constructor
    · simp [parse_build_tasks]
    constructor
    · intro h
      cases h
    constructor
    · cases build_file_exists <;> simp [parse_build_tasks]
    constructor
    · intro lines2 h
      obtain ⟨rfl⟩ : lines = lines2 := by injection h
      obtain ⟨extra, h1, h2⟩ :=
        parse_fold_spec build_dir query (lines.filterMap parse_target_line)
          (tasks0, graph0)
      exact ⟨extra, h1, h2⟩
    · intro hq
      obtain ⟨extra, h1, h2⟩ :=
        parse_fold_spec build_dir query (lines.filterMap parse_target_line)
          (tasks0, graph0)
      have hfilter : (lines.filterMap parse_target_line).filter
          (fun t => (query t).isSome) = [] := by
        apply List.filter_eq_nil_iff.mpr
        intro t _
        rw [hq t]
        decide
      rw [hfilter] at h2
      have hextra : extra = [] := List.map_eq_nil_iff.mp h2
      rw [hextra] at h1
      simpa using h1

/-- C6 witness: two listed targets, one queryable; ingestion succeeds,
fabricates the placeholder build inputs, and only the queryable target
becomes a task. -/
theorem claim_C6_witness :
    ((parse_build_tasks "build" false (some ["a: phony", "# c", "b: cxx"])
        query_fix [] []).success = false ↔
      (some ["a: phony", "# c", "b: cxx"] : Option (List String)) = none) ∧
    ∃ extra,
      (parse_build_tasks "build" false (some ["a: phony", "# c", "b: cxx"])
        query_fix [] []).tasks = [] ++ extra ∧
      extra.map (fun t => t.target) = ["a"] := by
  obtain ⟨h1, -, -, h4, -⟩ :=
    claim_C6 "build" false (some ["a: phony", "# c", "b: cxx"]) query_fix [] []
  obtain ⟨extra, h5, h6⟩ := h4 ["a: phony", "# c", "b: cxx"] rfl
  refine ⟨h1, extra, h5, ?_⟩
  rw [h6]
  decide

/-! ### C7: heartbeat monitor -/

/--
C7 counterexample: the claim as worded is false — within the
3-interval window the local agent's `last_seen` is not refreshed (the
refresh sits inside the staleness branch).
-/
theorem claim_C7_counterexample : ¬ spec_claim_C7 := by
  intro h
  have h1 := h 5 11 { agent_local with last_seen := 10 } rfl
  exact absurd h1 (by decide)

/--
C7 (amended): per monitor iteration, the local agent's status is never
changed (in particular never to `"unavailable"`) and its `last_seen` is
refreshed to the current time exactly when it has gone stale
(`now - last_seen > interval * 3`); every other agent is marked
`"unavailable"` when stale (its `last_seen` untouched) and left
entirely unchanged inside the window.
-/
theorem claim_C7 (interval now : Int) (agents : List BuildAgent) (i : Nat)
    (hi : i < agents.length) :
    ∃ hi' : i < (heartbeat_step interval now agents).length,
      (((agents.get ⟨i, hi⟩).host = "localhost" →
        ((heartbeat_step interval now agents).get ⟨i, hi'⟩).status =
          (agents.get ⟨i, hi⟩).status ∧
        (now - (agents.get ⟨i, hi⟩).last_seen > interval * 3 →
          ((heartbeat_step interval now agents).get ⟨i, hi'⟩).last_seen = now) ∧
        (¬ now - (agents.get ⟨i, hi⟩).last_seen > interval * 3 →
          (heartbeat_step interval now agents).get ⟨i, hi'⟩ = agents.get ⟨i, hi⟩)) ∧
      ((agents.get ⟨i, hi⟩).host ≠ "localhost" →
        (now - (agents.get ⟨i, hi⟩).last_seen > interval * 3 →
          ((heartbeat_step interval now agents).get ⟨i, hi'⟩).status = "unavailable" ∧
          ((heartbeat_step interval now agents).get ⟨i, hi'⟩).last_seen =
            (agents.get ⟨i, hi⟩).last_seen) ∧
        (¬ now - (agents.get ⟨i, hi⟩).last_seen > interval * 3 →
          (heartbeat_step interval now agents).get ⟨i, hi'⟩ = agents.get ⟨i, hi⟩))) := by
  have hlen : (heartbeat_step interval now agents).length = agents.length := by
    simp [heartbeat_step]
  refine ⟨hlen ▸ hi, ?_⟩
  have hget : (heartbeat_step interval now agents).get ⟨i, hlen ▸ hi⟩ =
      heartbeat_agent interval now (agents.get ⟨i, hi⟩) := by
    simp [heartbeat_step]
  rw [hget]
  set a := agents.get ⟨i, hi⟩ with ha
  constructor
  · intro hloc
    by_cases hstale : now - a.last_seen > interval * 3
    · rw [heartbeat_agent, if_pos hstale, if_pos hloc]
      exact ⟨rfl, fun _ => rfl, fun hc => absurd hstale hc⟩
    · rw [heartbeat_agent, if_neg hstale]
      exact ⟨rfl, fun hc => absurd hc hstale, fun _ => rfl⟩
  · intro hloc
    by_cases hstale : now - a.last_seen > interval * 3
    · rw [heartbeat_agent, if_pos hstale, if_neg hloc]
      exact ⟨fun _ => ⟨rfl, rfl⟩, fun hc => absurd hstale hc⟩
    · rw [heartbeat_agent, if_neg hstale]
      exact ⟨fun hc => absurd hc hstale, fun _ => rfl⟩

/-- C7 witness: a fresh local agent is untouched by the iteration. -/
theorem claim_C7_witness :
    ∃ hi' : 0 < (heartbeat_step 5 11 [{ agent_local with last_seen := 10 }]).length,
      (heartbeat_step 5 11 [{ agent_local with last_seen := 10 }]).get ⟨0, hi'⟩ =
        { agent_local with last_seen := 10 } := by
  obtain ⟨hi', hloc, -⟩ :=
    claim_C7 5 11 [{ agent_local with last_seen := 10 }] 0 (by decide)
  obtain ⟨-, -, h3⟩ := hloc rfl
  exact ⟨hi', h3 (by decide)⟩

/-! ### C9: probe failures leave the registry unchanged -/

/--
C9: any probe failure (connection error, missing `NINJA-AGENT:` prefix,
undecodable payload) registers nothing — the registry is returned
unchanged — and discovery of the remaining hosts in the hosts list
proceeds exactly as if the failing host had not been probed.
-/
theorem claim_C9 (decode : String → Option AgentCaps) (reply : Option String)
    (host : String) (port now : Int) (agents : List BuildAgent)
    (rest : List (String × Int × Option String))
    (h : probe_failed decode reply) :
    probe_and_register_agent decode reply host port now agents = agents ∧
    discover_from_hosts_file decode now ((host, port, reply) :: rest) agents =
      discover_from_hosts_file decode now rest agents := by
  have hsame : probe_and_register_agent decode reply host port now agents = agents := by
    rcases reply with - | r
    · rfl
    · rcases h with h | h
      · rw [probe_and_register_agent, if_neg h]
      · by_cases hp : str_starts_with r "NINJA-AGENT:"
        · rw [probe_and_register_agent, if_pos hp, h]
        · rw [probe_and_register_agent, if_neg hp]
  refine ⟨hsame, ?_⟩
  rw [discover_from_hosts_file, List.foldl_cons]
  rw [show ((host, port, reply) : String × Int × Option String).2.2 = reply from rfl,
    show ((host, port, reply) : String × Int × Option String).1 = host from rfl,
    show ((host, port, reply) : String × Int × Option String).2.1 = port from rfl]
  rw [hsame]
  rfl

/-- C9 witness: a reply without the agent prefix registers nothing and
does not derail discovery of the rest of the hosts list. -/
theorem claim_C9_witness :
    probe_and_register_agent (fun _ => none) (some "PROBE-DENIED") "10.0.0.9" 8374 0
      [agent_local] = [agent_local] ∧
    discover_from_hosts_file (fun _ => none) 0
      [("10.0.0.9", 8374, some "PROBE-DENIED")] [agent_local] =
      discover_from_hosts_file (fun _ => none) 0 [] [agent_local] :=
  claim_C9 (fun _ => none) (some "PROBE-DENIED") "10.0.0.9" 8374 0 [agent_local] []
    (Or.inl (by decide))

/-! ### C5 and C10: agent reservation -/

/--
C5: `_reserve_agent` returns `none` exactly when no registered agent is
idle; otherwise it returns (busy, with the task's target attached) the
first idle agent, in registration order, attaining the maximum core
count among idle agents — the stable descending sort breaks core-count
ties by insertion order — and the updated registry carries that agent's
new state.
-/
theorem claim_C5 (agents : List BuildAgent) (task : BuildTask) :
    ((reserve_agent agents task).1 = none ↔ ∀ a ∈ agents, a.status ≠ "idle") ∧
    (∀ b', (reserve_agent agents task).1 = some b' →
      ∃ pre b post,
        agents.filter (fun a => a.status == "idle") = pre ++ b :: post ∧
        (∀ c ∈ pre, c.cores < b.cores) ∧
        (∀ c ∈ agents, c.status = "idle" → c.cores ≤ b.cores) ∧
        b' = { b with status := "busy", current_task := some task.target } ∧
        b' ∈ (reserve_agent agents task).2) := by
  rcases hidle : agents.filter (fun a => a.status == "idle") with - | ⟨a0, rest⟩
  · have hr : reserve_agent agents task = (none, agents) := by
      rw [reserve_agent, hidle]
    rw [hr]
    constructor
    · constructor
      · intro _ a ha hs
        have := List.filter_eq_nil_iff.mp hidle a ha
        exact this (by simp [hs])
      · intro _
        rfl
    · intro b' hb'
      exact Option.noConfusion hb'
  · rcases hsort : sort_desc_by (fun a => a.cores) (a0 :: rest) with - | ⟨b, rest2⟩
    · have := sort_desc_by_perm (fun a => a.cores) (a0 :: rest)
      rw [hsort] at this
      exact absurd this.symm (by simp)
    · have hr : reserve_agent agents task =
          (some { b with status := "busy", current_task := some task.target },
           agents.map (fun a =>
             if a.name = b.name then
               { b with status := "busy", current_task := some task.target }
             else a)) := by
        rw [reserve_agent, hidle, hsort]
      have hbmem : b ∈ agents := by
        have hb1 : b ∈ sort_desc_by (fun a => a.cores) (a0 :: rest) := by
          rw [hsort]; exact List.mem_cons_self b rest2
        have hb2 : b ∈ a0 :: rest :=
          (sort_desc_by_perm (fun a => a.cores) (a0 :: rest)).mem_iff.mp hb1
        rw [← hidle] at hb2
        exact List.mem_of_mem_filter hb2
      obtain ⟨pre, post, hdecomp, hpre, hall⟩ :=
        sort_desc_by_head (fun a => a.cores) (a0 :: rest) b rest2 hsort
      rw [hr]
      constructor
      · constructor
        · intro h
          exact Option.noConfusion h
        · intro h
          have ha0 : a0 ∈ agents.filter (fun a => a.status == "idle") := by
            rw [hidle]; exact List.mem_cons_self a0 rest
          have hs : a0.status = "idle" := by
            have := List.of_mem_filter ha0
            simpa using this
          exact absurd hs (h a0 (List.mem_of_mem_filter ha0))
      · intro b' hb'
        have hb'eq : b' = { b with status := "busy", current_task := some task.target } := by
          injection hb' with h
          exact h.symm
        refine ⟨pre, b, post, by rw [hidle, hdecomp], hpre, ?_, hb'eq, ?_⟩
        · intro c hc hcs
          have hcf : c ∈ agents.filter (fun a => a.status == "idle") := by
            rw [List.mem_filter]
            exact ⟨hc, by simp [hcs]⟩
          rw [hidle] at hcf
          exact hall c hcf
        · rw [hb'eq]
          exact List.mem_map.mpr ⟨b, hbmem, by rw [if_pos rfl]⟩

/-- C5 witness: two idle agents tied at 4 cores plus a busy 8-core
agent; reservation picks the earliest-registered idle agent. -/
theorem claim_C5_witness :
    ((reserve_agent [agent_local, { agent_remote with status := "busy" }, agent_tied]
        task_x).1 = none ↔
      ∀ a ∈ [agent_local, { agent_remote with status := "busy" }, agent_tied],
        a.status ≠ "idle") ∧
    ∃ pre b post,
      [agent_local, { agent_remote with status := "busy" }, agent_tied].filter
        (fun a => a.status == "idle") = pre ++ b :: post ∧
      (∀ c ∈ pre, c.cores < b.cores) ∧
      ({ b with status := "busy", current_task := some task_x.target } : BuildAgent) =
        { agent_local with status := "busy", current_task := some "x" } := by
  obtain ⟨h1, h2⟩ :=
    claim_C5 [agent_local, { agent_remote with status := "busy" }, agent_tied] task_x
  obtain ⟨pre, b, post, hd, hpre, -, hb', -⟩ := h2 _ rfl
  refine ⟨h1, pre, b, post, hd, hpre, ?_⟩
  rw [← hb']
  decide

/--
C10 (frame property): reservation touches nothing but the chosen
agent's `status` and `current_task`: on `none` the registry is returned
unchanged; on `some b'`, every registry slot whose agent name differs
from `b'`'s is unchanged, and the slot holding `b'` agrees with its old
occupant on `name`, `host`, `port`, `cores`, `available_memory` and
`last_seen`.
-/
theorem claim_C10 (agents : List BuildAgent) (task : BuildTask)
    (hnames : (agents.map (fun a => a.name)).Nodup) :
    ((reserve_agent agents task).1 = none → (reserve_agent agents task).2 = agents) ∧
    (∀ b', (reserve_agent agents task).1 = some b' →
      (reserve_agent agents task).2.length = agents.length ∧
      ∀ i (hi : i < agents.length) (hi2 : i < (reserve_agent agents task).2.length),
        ((agents.get ⟨i, hi⟩).name ≠ b'.name →
          (reserve_agent agents task).2.get ⟨i, hi2⟩ = agents.get ⟨i, hi⟩) ∧
        ((agents.get ⟨i, hi⟩).name = b'.name →
          (reserve_agent agents task).2.get ⟨i, hi2⟩ = b' ∧
          b'.name = (agents.get ⟨i, hi⟩).name ∧
          b'.host = (agents.get ⟨i, hi⟩).host ∧
          b'.port = (agents.get ⟨i, hi⟩).port ∧
          b'.cores = (agents.get ⟨i, hi⟩).cores ∧
          b'.available_memory = (agents.get ⟨i, hi⟩).available_memory ∧
          b'.last_seen = (agents.get ⟨i, hi⟩).last_seen)) := by
  rcases hidle : agents.filter (fun a => a.status == "idle") with - | ⟨a0, rest⟩
  · have hr : reserve_agent agents task = (none, agents) := by
      rw [reserve_agent, hidle]
    rw [hr]
    exact ⟨fun _ => rfl, fun b' hb' => Option.noConfusion hb'⟩
  · rcases hsort : sort_desc_by (fun a => a.cores) (a0 :: rest) with - | ⟨b, rest2⟩
    · have := sort_desc_by_perm (fun a => a.cores) (a0 :: rest)
      rw [hsort] at this
      exact absurd this.symm (by simp)
    · have hbmem : b ∈ agents := by
        have hb1 : b ∈ sort_desc_by (fun a => a.cores) (a0 :: rest) := by
          rw [hsort]; exact List.mem_cons_self b rest2
        have hb2 : b ∈ a0 :: rest :=
          (sort_desc_by_perm (fun a => a.cores) (a0 :: rest)).mem_iff.mp hb1
        rw [← hidle] at hb2
        exact List.mem_of_mem_filter hb2
      have hr : reserve_agent agents task =
          (some { b with status := "busy", current_task := some task.target },
           agents.map (fun a =>
             if a.name = b.name then
               { b with status := "busy", current_task := some task.target }
             else a)) := by
        rw [reserve_agent, hidle, hsort]
      rw [hr]
      refine ⟨fun h => Option.noConfusion h, fun b' hb' => ?_⟩
      have hb'eq : b' = { b with status := "busy", current_task := some task.target } := by
        injection hb' with h
        exact h.symm
      refine ⟨by simp, fun i hi hi2 => ?_⟩
      have hget : (agents.map (fun a =>
            if a.name = b.name then
              { b with status := "busy", current_task := some task.target }
            else a)).get ⟨i, hi2⟩ =
          if (agents.get ⟨i, hi⟩).name = b.name then
            { b with status := "busy", current_task := some task.target }
          else agents.get ⟨i, hi⟩ := by
        simp [List.get_eq_getElem]
      have hb'name : b'.name = b.name := by rw [hb'eq]
      constructor
      · intro hne
        rw [hget, if_neg]
        rw [hb'name] at hne
        exact hne
      · intro heq
        rw [hb'name] at heq
        have hxb : agents.get ⟨i, hi⟩ = b :=
          List.inj_on_of_nodup_map hnames (agents.get_mem i hi) hbmem heq
        rw [hget, if_pos heq, hb'eq, hxb]
        exact ⟨rfl, rfl, rfl, rfl, rfl, rfl, rfl⟩

/-- C10 witness: the two-idle-agents registry of the C5 witness; the
untouched slots survive reservation unchanged. -/
theorem claim_C10_witness :
    (reserve_agent [agent_local, { agent_remote with status := "busy" }, agent_tied]
      task_x).2.length = 3 ∧
    ∃ hi2 : 1 < (reserve_agent
        [agent_local, { agent_remote with status := "busy" }, agent_tied]
        task_x).2.length,
      (reserve_agent [agent_local, { agent_remote with status := "busy" }, agent_tied]
        task_x).2.get ⟨1, hi2⟩ = { agent_remote with status := "busy" } := by
  obtain ⟨-, h2⟩ :=
    claim_C10 [agent_local, { agent_remote with status := "busy" }, agent_tied]
      task_x (by decide)
  obtain ⟨hlen, hslots⟩ := h2 _ rfl
  have hi2 : 1 < (reserve_agent
      [agent_local, { agent_remote with status := "busy" }, agent_tied]
      task_x).2.length := by rw [hlen]; decide
  obtain ⟨hne, -⟩ := hslots 1 (by decide) hi2
  refine ⟨hlen, hi2, ?_⟩
  rw [hne (by decide)]
  rfl

/-! ### C1: ready-task selection -/

/-- A successful scan-and-pop splits the list at the first task whose
dependencies are all completed. -/
theorem pop_first_ready_some (ct : List String) :
    ∀ (l : List BuildTask) (t : BuildTask) (rest : List BuildTask),
      pop_first_ready ct l = (some t, rest) →
      ∃ pre post, l = pre ++ t :: post ∧ rest = pre ++ post ∧
        (∀ u ∈ pre, ¬ deps_completed ct u) ∧ deps_completed ct t
  | [], t, rest, h => by
    rw [pop_first_ready] at h
    injection h with h1 h2
    exact Option.noConfusion h1
  | u :: us, t, rest, h => by
    rw [pop_first_ready] at h
    by_cases hu : deps_completed ct u
    · rw [if_pos hu] at h
      injection h with h1 h2
      injection h1 with h1
      subst h1
      exact ⟨[], us, rfl, h2.symm, by simp, hu⟩
    · rw [if_neg hu] at h
      injection h with h1 h2
      obtain ⟨pre, post, hd, hr, hpre, ht⟩ :=
        pop_first_ready_some ct us t (pop_first_ready ct us).2
          (Prod.ext h1 rfl)
      refine ⟨u :: pre, post, by rw [hd]; rfl, ?_, ?_, ht⟩
      · rw [← h2, hr]
        rfl
      · intro v hv
        rcases List.mem_cons.mp hv with rfl | hv
        · exact hu
        · exact hpre v hv

/-- A failed scan-and-pop leaves the list unchanged, and no task in it
has all dependencies completed. -/
theorem pop_first_ready_none (ct : List String) :
    ∀ (l rest : List BuildTask), pop_first_ready ct l = (none, rest) →
      rest = l ∧ ∀ u ∈ l, ¬ deps_completed ct u
  | [], rest, h => by
    rw [pop_first_ready] at h
    injection h with h1 h2
    exact ⟨h2.symm, by simp⟩
  | u :: us, rest, h => by
    rw [pop_first_ready] at h
    by_cases hu : deps_completed ct u
    · rw [if_pos hu] at h
      injection h with h1 h2
      exact Option.noConfusion h1
    · rw [if_neg hu] at h
      injection h with h1 h2
      obtain ⟨hr, hall⟩ :=
        pop_first_ready_none ct us (pop_first_ready ct us).2 (Prod.ext h1 rfl)
      refine ⟨by rw [← h2, hr], ?_⟩
      intro v hv
      rcases List.mem_cons.mp hv with rfl | hv
      · exact hu
      · exact hall v hv

/-- When no task is eligible the scan-and-pop returns `none` and the
list itself. -/
theorem pop_first_ready_none_of (ct : List String) :
    ∀ (l : List BuildTask), (∀ u ∈ l, ¬ deps_completed ct u) →
      pop_first_ready ct l = (none, l)
  | [], _ => rfl
  | u :: us, h => by
    rw [pop_first_ready, if_neg (h u (List.mem_cons_self u us)),
      pop_first_ready_none_of ct us (fun v hv => h v (List.mem_cons_of_mem u hv))]

/--
C1: `_get_next_task` returns a task only if its every dependency id
is the target of some completed task; the returned task has maximal
priority among the eligible pending tasks; the returned task is removed
from the pending list in the same operation (the list it leaves behind
is the pending list minus exactly that task, up to the priority
re-sort); and it returns `none` exactly when no pending task has all
its dependencies completed — in particular on an empty pending list.
-/
theorem claim_C1 (pending completed : List BuildTask) :
    (∀ t, (get_next_task pending completed).1 = some t →
      (∀ d ∈ t.dependencies, d ∈ completed.map (fun c => c.target)) ∧
      (t :: (get_next_task pending completed).2).Perm pending ∧
      (∀ u ∈ pending,
        deps_completed (completed.map (fun c => c.target)) u →
          u.priority ≤ t.priority)) ∧
    ((get_next_task pending completed).1 = none ↔
      ∀ u ∈ pending, ¬ deps_completed (completed.map (fun c => c.target)) u) ∧
    ((get_next_task pending completed).1 = none →
      (get_next_task pending completed).2.Perm pending) := by
  have hperm := sort_desc_by_perm (fun t => t.priority) pending
  have hsorted := sort_desc_by_sorted (fun t => t.priority) pending
  refine ⟨?_, ⟨?_, ?_⟩, ?_⟩
  · intro t ht
    have hpair : pop_first_ready (completed.map (fun c => c.target))
        (sort_desc_by (fun t => t.priority) pending) =
        (some t, (get_next_task pending completed).2) := Prod.ext ht rfl
    obtain ⟨pre, post, hd, hr, hpre, hdt⟩ :=
      pop_first_ready_some _ _ t _ hpair
    refine ⟨hdt, ?_, ?_⟩
    · rw [hr]
      exact List.Perm.trans List.perm_middle.symm (hd ▸ hperm)
    · intro u hu hcu
      have humem : u ∈ sort_desc_by (fun t => t.priority) pending :=
        hperm.mem_iff.mpr hu
      rw [hd] at humem
      rcases List.mem_append.mp humem with hum | hum
      · exact absurd hcu (hpre u hum)
      · rcases List.mem_cons.mp hum with rfl | hum
        · exact le_refl _
        · have hs2 := hd ▸ hsorted
          have := (List.pairwise_append.mp hs2).2.1
          exact List.rel_of_sorted_cons this u hum
  · intro hnone u hu hcu
    have hpair : pop_first_ready (completed.map (fun c => c.target))
        (sort_desc_by (fun t => t.priority) pending) =
        (none, (get_next_task pending completed).2) := Prod.ext hnone rfl
    obtain ⟨-, hall⟩ := pop_first_ready_none _ _ _ hpair
    exact hall u (hperm.mem_iff.mpr hu) hcu
  · intro hall
    have := pop_first_ready_none_of (completed.map (fun c => c.target))
      (sort_desc_by (fun t => t.priority) pending)
      (fun u hu => hall u (hperm.mem_iff.mp hu))
    exact congrArg Prod.fst this
  · intro hnone
    have hpair : pop_first_ready (completed.map (fun c => c.target))
        (sort_desc_by (fun t => t.priority) pending) =
        (none, (get_next_task pending completed).2) := Prod.ext hnone rfl
    obtain ⟨hr, -⟩ := pop_first_ready_none _ _ _ hpair
    rw [hr]
    exact hperm

/-- C1 witness: with nothing completed, among `[task_x, task_y, task_z]`
(priorities 3, 7, 5; `task_y` blocked on `"z"`) the selection pops
`task_z`, the highest-priority eligible task. -/
theorem claim_C1_witness :
    (get_next_task [task_x, task_y, task_z] []).1 = some task_z ∧
    (task_z :: (get_next_task [task_x, task_y, task_z] []).2).Perm
      [task_x, task_y, task_z] ∧
    task_x.priority ≤ task_z.priority := by
  obtain ⟨h1, -, -⟩ := claim_C1 [task_x, task_y, task_z] []
  obtain ⟨-, hperm, hpri⟩ := h1 task_z (by decide)
  exact ⟨by decide, hperm, hpri task_x (by decide) (by decide)⟩

/-! ### C3: composite priority and the optimised plan -/

/--
C3 counterexample: the claim as worded is false — for a task that
depends on its own target, the code's `dependents_count` (it scans every
build-graph entry, the task's own included) counts the task itself,
where the claim's "number of other tasks" does not: a single
self-dependent task gets priority 10, not 0.
-/
theorem claim_C3_counterexample : ¬ spec_claim_C3 := by
  intro h
  obtain ⟨t', hmem, htarget, hpri⟩ :=
    h [task_selfdep] [("A", ["A"])] (by decide) 0 (by decide)
  have hopt : optimize_build_plan [task_selfdep] [("A", ["A"])] =
      [{ task_selfdep with priority := 10 }] := by decide
  rw [hopt] at hmem
  have ht' : t' = { task_selfdep with priority := 10 } :=
    List.mem_singleton.mp hmem
  rw [ht'] at hpri
  revert hpri
  decide

/-- Inserting into a descending-sorted list commutes with filtering by
an exact key value: the new element lands in front of the existing
elements of its key. -/
theorem orderedInsert_filter_key (key : α → Int) (x : α) (v : Int) :
    ∀ (s : List α), List.Sorted (fun a b => key b ≤ key a) s →
      (List.orderedInsert (fun a b => key b ≤ key a) x s).filter
          (fun a => key a == v) =
        if key x = v then x :: s.filter (fun a => key a == v)
        else s.filter (fun a => key a == v)
  | [], _ => by
    by_cases hx : key x = v <;> simp [List.orderedInsert, hx]
  | b :: s', hsort => by
    rw [List.orderedInsert]
    by_cases hxb : key b ≤ key x
    · rw [if_pos hxb]
      by_cases hx : key x = v <;> simp [List.filter_cons, hx]
    · rw [if_neg hxb]
      rw [List.filter_cons, List.filter_cons,
        orderedInsert_filter_key key x v s' hsort.of_cons]
      push_neg at hxb
      by_cases hx : key x = v
      · have hb : ¬ key b = v := by
          intro hb
          rw [hb, ← hx] at hxb
          exact absurd hxb (lt_irrefl _)
        simp [hb, hx]
      · by_cases hb : key b = v <;> simp [hx, hb]

/-- The stable descending sort preserves, for every key value, the
subsequence of elements carrying that exact key (stability). -/
theorem sort_desc_by_filter_key (key : α → Int) (v : Int) :
    ∀ (l : List α), (sort_desc_by key l).filter (fun a => key a == v) =
      l.filter (fun a => key a == v)
  | [] => rfl
  | x :: l => by
    rw [sort_desc_by, List.insertionSort,
      show List.insertionSort (fun a b => key b ≤ key a) l = sort_desc_by key l from rfl]
    rw [orderedInsert_filter_key key x v (sort_desc_by key l) (sort_desc_by_sorted key l)]
    rw [sort_desc_by_filter_key key v l]
    rw [List.filter_cons]
    by_cases hx : key x = v <;> simp [hx]

/--
C3 (amended): after `optimize_build_plan`, the task at topological
rank `i` carries priority `i + 10·d` where `d` is the number of
build-graph entries whose dependency list contains its target (the
task's own entry included when it depends on itself — this is where the
claim's "other tasks" failed); and the resulting pending list is the
prioritised topological order stably sorted descending by priority
(a permutation of it, sorted descending, preserving for every priority
value the relative order of the tasks carrying it).
-/
theorem claim_C3 (tasks : List BuildTask) (graph : List (String × List String)) :
    (∀ i (hi : i < (topological_sort tasks graph).length),
      ∃ hi2 : i < (assign_priorities graph (topological_sort tasks graph)).length,
        (assign_priorities graph (topological_sort tasks graph)).get ⟨i, hi2⟩ =
          { (topological_sort tasks graph).get ⟨i, hi⟩ with
              priority := (i : Int) +
                dependents_count graph
                  ((topological_sort tasks graph).get ⟨i, hi⟩).target * 10 }) ∧
    (optimize_build_plan tasks graph).Perm
      (assign_priorities graph (topological_sort tasks graph)) ∧
    List.Sorted (fun a b => b.priority ≤ a.priority) (optimize_build_plan tasks graph) ∧
    (∀ v : Int, (optimize_build_plan tasks graph).filter (fun t => t.priority == v) =
      (assign_priorities graph (topological_sort tasks graph)).filter
        (fun t => t.priority == v)) := by
  refine ⟨?_, ?_, ?_, ?_⟩
  · intro i hi
    have hi2 : i < (assign_priorities graph (topological_sort tasks graph)).length := by
      simpa [assign_priorities] using hi
    refine ⟨hi2, ?_⟩
    simp [assign_priorities, List.get_eq_getElem]
  · exact sort_desc_by_perm _ _
  · exact sort_desc_by_sorted (fun t : BuildTask => t.priority) _
  · intro v
    exact sort_desc_by_filter_key (fun t : BuildTask => t.priority) v _

/-- C3 witness: graph `A ← B`; `A` (rank 0, one dependent) gets
priority 10, and the optimised plan is sorted descending. -/
theorem claim_C3_witness :
    (∃ hi2 : 0 < (assign_priorities [("A", ([] : List String)), ("B", ["A"])]
        (topological_sort [task_root, task_leaf]
          [("A", []), ("B", ["A"])])).length,
      (assign_priorities [("A", ([] : List String)), ("B", ["A"])]
        (topological_sort [task_root, task_leaf]
          [("A", []), ("B", ["A"])])).get ⟨0, hi2⟩ =
        { task_root with priority := 10 }) ∧
    List.Sorted (fun a b => b.priority ≤ a.priority)
      (optimize_build_plan [task_root, task_leaf] [("A", []), ("B", ["A"])]) := by
  obtain ⟨ha, -, hc, -⟩ :=
    claim_C3 [task_root, task_leaf] [("A", []), ("B", ["A"])]
  obtain ⟨hi2, heq⟩ := ha 0 (by decide)
  refine ⟨⟨hi2, ?_⟩, hc⟩
  rw [heq]
  decide

/-! ### C8: the topological sort terminates and keeps every task once -/

theorem visit_post_refl (keys : List String) (s : TopoState)
    (h : topo_inv keys s) : visit_post keys s s :=
  ⟨rfl, h, rfl, fun _ ht => ht, fun _ ht => Or.inl ht⟩

theorem visit_post_trans (keys : List String) {s s' s'' : TopoState}
    (h1 : visit_post keys s s') (h2 : visit_post keys s' s'') :
    visit_post keys s s'' := by
  obtain ⟨ht1, -, ho1, hg1, hn1⟩ := h1
  obtain ⟨ht2, hi2, ho2, hg2, hn2⟩ := h2
  refine ⟨ht2.trans ht1, hi2, ho2.trans ho1,
    fun t ht => hg2 t (hg1 t ht), fun t ht => ?_⟩
  rcases hn2 t ht with h | ⟨hk, htemp⟩
  · exact hn1 t h
  · rw [ht1] at htemp
    exact Or.inr ⟨hk, htemp⟩

theorem decide_not_mem_true {a : String} {l : List String} (h : ¬ a ∈ l) :
    decide (¬ a ∈ l) = true := decide_eq_true h

theorem not_decide_not_mem {a : String} {l : List String} (h : a ∈ l) :
    ¬ (decide (¬ a ∈ l) = true) := by simp [h]

/-- Growing the in-progress set never lengthens the untouched-keys
measure. -/
theorem filter_temp_le (keys : List String) (a : String) (temp : List String) :
    (keys.filter (fun k => decide (¬ k ∈ a :: temp))).length ≤
      (keys.filter (fun k => decide (¬ k ∈ temp))).length := by
  induction keys with
  | nil => exact le_refl _
  | cons b keys ih =>
    rw [List.filter_cons, List.filter_cons]
    by_cases hb1 : b ∈ a :: temp
    · rw [if_neg (not_decide_not_mem hb1)]
      by_cases hb2 : b ∈ temp
      · rw [if_neg (not_decide_not_mem hb2)]
        exact ih
      · rw [if_pos (decide_not_mem_true hb2)]
        simp only [List.length_cons]
        omega
    · have hb2 : ¬ b ∈ temp := fun h => hb1 (List.mem_cons_of_mem a h)
      rw [if_pos (decide_not_mem_true hb1), if_pos (decide_not_mem_true hb2)]
      simpa using ih

/-- Marking a known, not-yet-in-progress target in progress strictly
shrinks the untouched-keys measure (the recursion-depth bound). -/
theorem filter_temp_lt (keys : List String) (a : String) (temp : List String)
    (ha : a ∈ keys) (hna : ¬ a ∈ temp) :
    (keys.filter (fun k => decide (¬ k ∈ a :: temp))).length <
      (keys.filter (fun k => decide (¬ k ∈ temp))).length := by
  induction keys with
  | nil => exact absurd ha (by simp)
  | cons b keys ih =>
    rw [List.filter_cons, List.filter_cons]
    by_cases hb1 : b ∈ a :: temp
    · rw [if_neg (not_decide_not_mem hb1)]
      by_cases hb2 : b ∈ temp
      · rw [if_neg (not_decide_not_mem hb2)]
        rcases List.mem_cons.mp ha with rfl | ha'
        · exact absurd hb2 hna
        · exact ih ha'
      · rw [if_pos (decide_not_mem_true hb2)]
        have := filter_temp_le keys a temp
        simp only [List.length_cons]
        omega
    · have hb2 : ¬ b ∈ temp := fun h => hb1 (List.mem_cons_of_mem a h)
      rw [if_pos (decide_not_mem_true hb1), if_pos (decide_not_mem_true hb2)]
      have ha' : a ∈ keys := by
        rcases List.mem_cons.mp ha with rfl | h
        · exact absurd (List.mem_cons_self a temp) hb1
        · exact h
      simpa using ih ha'

/-- The dependency loop preserves the traversal guarantees, given that
the recursive call does (at a fuel bound that depends only on the
in-progress set, which the loop preserves). -/
theorem visit_deps_post (keys : List String)
    (f : String → TopoState → TopoState) (bnd : List String → Prop)
    (hf : ∀ target s, target ∈ keys → bnd s.temp → topo_inv keys s →
      visit_post keys s (f target s)) :
    ∀ (deps : List String) (s : TopoState), bnd s.temp → topo_inv keys s →
      visit_post keys s (visit_deps keys f deps s)
  | [], s, _, hinv => visit_post_refl keys s hinv
  | dep :: rest, s, hb, hinv => by
    rw [visit_deps]
    by_cases hd : dep ∈ keys
    · rw [if_pos hd]
      have h1 := hf dep s hd hb hinv
      have h2 := visit_deps_post keys f bnd hf rest (f dep s)
        (by rw [h1.1]; exact hb) h1.2.1
      exact visit_post_trans keys h1 h2
    · rw [if_neg hd]
      exact visit_deps_post keys f bnd hf rest s hb hinv

/-- The heart of C8: with fuel exceeding the number of keys not yet in
progress, `visit` satisfies the traversal guarantees and marks its
target visited. -/
theorem visit_spec (graph : List (String × List String)) (keys : List String) :
    ∀ (fuel : Nat) (target : String) (s : TopoState),
      target ∈ keys →
      (keys.filter (fun k => decide (¬ k ∈ s.temp))).length < fuel →
      topo_inv keys s →
      visit_post keys s (visit graph keys fuel target s) ∧
      (¬ target ∈ s.temp → target ∈ (visit graph keys fuel target s).visited)
  | 0, target, s, _, hb, _ => absurd hb (by omega)
  | fuel + 1, target, s, hk, hb, hinv => by
    rw [show visit graph keys (fuel + 1) target s =
        (if target ∈ s.temp then s
         else if target ∈ s.visited then s
         else
           let s1 := { s with temp := target :: s.temp }
           let s2 := visit_deps keys (visit graph keys fuel) (graph_get graph target) s1
           { s2 with temp := s2.temp.erase target,
                     visited := target :: s2.visited,
                     result := if target ∈ keys then s2.result ++ [target] else s2.result })
      from rfl]
    by_cases h1 : target ∈ s.temp
    · rw [if_pos h1]
      exact ⟨visit_post_refl keys s hinv, fun h => absurd h1 h⟩
    · rw [if_neg h1]
      by_cases h2 : target ∈ s.visited
      · rw [if_pos h2]
        exact ⟨visit_post_refl keys s hinv, fun _ => h2⟩
      · rw [if_neg h2]
        dsimp only
        have hinv1 : topo_inv keys { s with temp := target :: s.temp } := by
          obtain ⟨hA, hB, hC⟩ := hinv
          refine ⟨hA, hB, ?_⟩
          intro t ht
          rcases List.mem_cons.mp ht with rfl | ht
          · exact h2
          · exact hC t ht
        have hb1 : (keys.filter (fun k =>
            decide (¬ k ∈ ({ s with temp := target :: s.temp } : TopoState).temp))).length < fuel := by
          have hlt := filter_temp_lt keys target s.temp hk h1
          have hle : (keys.filter (fun k => decide (¬ k ∈ s.temp))).length < fuel + 1 := hb
          exact lt_of_lt_of_le hlt (Nat.lt_succ_iff.mp hle)
        have hdeps := visit_deps_post keys (visit graph keys fuel)
          (fun temp => (keys.filter (fun k => decide (¬ k ∈ temp))).length < fuel)
          (fun tg s' htg hbnd hinv' => (visit_spec graph keys fuel tg s' htg hbnd hinv').1)
          (graph_get graph target) { s with temp := target :: s.temp } hb1 hinv1
        obtain ⟨htemp2, hinv2, hov2, hgrow2, hnew2⟩ := hdeps
        obtain ⟨hA2, hB2, hC2⟩ := hinv2
        have htemp2' : (visit_deps keys (visit graph keys fuel)
            (graph_get graph target) { s with temp := target :: s.temp }).temp =
            target :: s.temp := htemp2
        have htne : ¬ target ∈ (visit_deps keys (visit graph keys fuel)
            (graph_get graph target) { s with temp := target :: s.temp }).visited := by
          intro hmem
          rcases hnew2 target hmem with hmem' | ⟨-, hntemp⟩
          · exact h2 hmem'
          · exact hntemp (List.mem_cons_self _ _)
        have herase : ((visit_deps keys (visit graph keys fuel) (graph_get graph target)
            { s with temp := target :: s.temp }).temp.erase target) = s.temp := by
          rw [htemp2']
          exact List.erase_cons_head target s.temp
        refine ⟨⟨?_, ⟨?_, ?_, ?_⟩, ?_, ?_, ?_⟩, ?_⟩
        · exact herase
        · show (if target ∈ keys then _ ++ [target] else _).reverse = _
          rw [if_pos hk]
          rw [List.reverse_append, List.filter_cons]
          rw [if_pos (by simpa using hk)]
          rw [hA2]
          rfl
        · exact List.nodup_cons.mpr ⟨htne, hB2⟩
        · intro t ht
          have ht' : t ∈ s.temp := by
            rw [herase] at ht
            exact ht
          intro hmem
          rcases List.mem_cons.mp hmem with rfl | hmem
          · exact h1 ht'
          · rcases hnew2 t hmem with hv | ⟨-, hnt⟩
            · exact hinv.2.2 t ht' hv
            · exact hnt (List.mem_cons_of_mem target ht')
        · exact hov2
        · intro t ht
          exact List.mem_cons_of_mem target (hgrow2 t ht)
        · intro t ht
          rcases List.mem_cons.mp ht with rfl | ht
          · exact Or.inr ⟨hk, h1⟩
          · rcases hnew2 t ht with hv | ⟨hkk, hnt⟩
            · exact Or.inl hv
            · exact Or.inr ⟨hkk, fun hmem => hnt (List.mem_cons_of_mem target hmem)⟩
        · intro _
          exact List.mem_cons_self target _

/-- The outer task loop of `_topological_sort` keeps the traversal
guarantees and ends with every processed task's target visited. -/
theorem topo_fold_spec (graph : List (String × List String)) (keys : List String) :
    ∀ (ts : List BuildTask) (s : TopoState),
      (∀ task ∈ ts, task.target ∈ keys) →
      s.temp = [] → topo_inv keys s →
      (ts.foldl (fun st task => if task.target ∈ st.visited then st
          else visit graph keys (keys.length + 1) task.target st) s).temp = [] ∧
      topo_inv keys (ts.foldl (fun st task => if task.target ∈ st.visited then st
          else visit graph keys (keys.length + 1) task.target st) s) ∧
      (ts.foldl (fun st task => if task.target ∈ st.visited then st
          else visit graph keys (keys.length + 1) task.target st) s).overflow = s.overflow ∧
      (∀ t, t ∈ s.visited →
        t ∈ (ts.foldl (fun st task => if task.target ∈ st.visited then st
          else visit graph keys (keys.length + 1) task.target st) s).visited) ∧
      (∀ task ∈ ts,
        task.target ∈ (ts.foldl (fun st task => if task.target ∈ st.visited then st
          else visit graph keys (keys.length + 1) task.target st) s).visited)
  | [], s, _, htemp, hinv => ⟨htemp, hinv, rfl, fun _ h => h, by simp⟩
  | task :: ts, s, hks, htemp, hinv => by
    rw [List.foldl_cons]
    by_cases hv : task.target ∈ s.visited
    · rw [if_pos hv]
      obtain ⟨c1, c2, c3, c4, c5⟩ := topo_fold_spec graph keys ts s
        (fun u hu => hks u (List.mem_cons_of_mem task hu)) htemp hinv
      refine ⟨c1, c2, c3, c4, ?_⟩
      intro u hu
      rcases List.mem_cons.mp hu with rfl | hu
      · exact c4 _ hv
      · exact c5 u hu
    · rw [if_neg hv]
      have hk := hks task (List.mem_cons_self task ts)
      have hbound : (keys.filter (fun k => decide (¬ k ∈ s.temp))).length <
          keys.length + 1 :=
        Nat.lt_succ_of_le (List.length_filter_le _ _)
      obtain ⟨hpost, hmem⟩ :=
        visit_spec graph keys (keys.length + 1) task.target s hk hbound hinv
      obtain ⟨hptemp, hpinv, hpov, hpgrow, -⟩ := hpost
      have htemp' : (visit graph keys (keys.length + 1) task.target s).temp = [] := by
        rw [hptemp, htemp]
      have hmem' := hmem (by rw [htemp]; exact List.not_mem_nil task.target)
      obtain ⟨c1, c2, c3, c4, c5⟩ := topo_fold_spec graph keys ts
        (visit graph keys (keys.length + 1) task.target s)
        (fun u hu => hks u (List.mem_cons_of_mem task hu)) htemp' hpinv
      refine ⟨c1, c2, by rw [c3, hpov], fun t ht => c4 t (hpgrow t ht), ?_⟩
      intro u hu
      rcases List.mem_cons.mp hu with rfl | hu
      · exact c4 _ hmem'
      · exact c5 u hu

/-- Counting through a `filterMap`. -/
theorem count_filterMap {α β : Type} [DecidableEq β] (f : α → Option β) (b : β) :
    ∀ (l : List α), (l.filterMap f).count b = l.countP (fun a => f a == some b)
  | [] => rfl
  | a :: l => by
    rcases hf : f a with - | c
    · simp [List.filterMap_cons, List.countP_cons, hf, count_filterMap f b l]
    · simp only [List.filterMap_cons, hf, List.countP_cons, List.count_cons,
        count_filterMap f b l]
      by_cases hcb : c = b <;> simp [hcb]

/-- With pairwise-distinct targets, `target_to_task` maps a task's
target back to that task. -/
theorem lookup_task_self (tasks : List BuildTask) (task : BuildTask)
    (hnodup : (tasks.map (fun t => t.target)).Nodup) (hmem : task ∈ tasks) :
    lookup_task tasks task.target = some task := by
  rw [lookup_task]
  rcases hfind : tasks.reverse.find? (fun t => t.target == task.target) with - | y
  · exfalso
    have := List.find?_eq_none.mp hfind task (List.mem_reverse.mpr hmem)
    simp at this
  · have hy1 : y.target = task.target := by
      have := List.find?_some hfind
      simpa using this
    have hy2 : y ∈ tasks := List.mem_reverse.mp (List.mem_of_find?_eq_some hfind)
    rw [hfind, List.inj_on_of_nodup_map hnodup hy2 hmem hy1]

/-- Whatever `target_to_task` returns carries the looked-up target and
belongs to the task list. -/
theorem lookup_task_target (tasks : List BuildTask) (a : String) (y : BuildTask)
    (h : lookup_task tasks a = some y) : y.target = a ∧ y ∈ tasks := by
  rw [lookup_task] at h
  constructor
  · have := List.find?_some h
    simpa using this
  · exact List.mem_reverse.mp (List.mem_of_find?_eq_some h)

/--
C8: on every dependency graph — cyclic ones included — the topological
sort's recursion stays within fuel `|keys| + 1` (the overflow flag stays
down: no unbounded recursion), and when the tasks carry pairwise
distinct targets the resulting order contains each known task exactly
once; a back-edge into an in-progress target is simply not followed.
-/
theorem claim_C8 (tasks : List BuildTask) (graph : List (String × List String))
    (hnodup : (tasks.map (fun t => t.target)).Nodup) :
    (topo_run tasks graph).overflow = false ∧
    ∀ task ∈ tasks, (topological_sort tasks graph).count task = 1 := by
  have hrun : topo_run tasks graph =
      tasks.foldl (fun st task => if task.target ∈ st.visited then st
        else visit graph (tasks.map (fun t => t.target))
          ((tasks.map (fun t => t.target)).length + 1) task.target st) topo_init := rfl
  obtain ⟨c1, c2, c3, c4, c5⟩ := topo_fold_spec graph (tasks.map (fun t => t.target))
    tasks topo_init (fun u hu => List.mem_map_of_mem _ hu) rfl
    ⟨rfl, List.nodup_nil, fun t ht => absurd ht (List.not_mem_nil t)⟩
  rw [← hrun] at c1 c2 c3 c5
  obtain ⟨hA, hB, hC⟩ := c2
  refine ⟨c3, ?_⟩
  intro task hmem
  have hres_nodup : (topo_run tasks graph).result.Nodup := by
    have h1 : (topo_run tasks graph).result.reverse.Nodup := by
      rw [hA]
      exact hB.filter _
    exact List.nodup_reverse.mp h1
  have htmem : task.target ∈ (topo_run tasks graph).result := by
    have h1 : task.target ∈ (topo_run tasks graph).result.reverse := by
      rw [hA]
      exact List.mem_filter.mpr ⟨c5 task hmem,
        by simpa using List.mem_map_of_mem (fun t => t.target) hmem⟩
    exact List.mem_reverse.mp h1
  have hts : topological_sort tasks graph =
      (topo_run tasks graph).result.filterMap (lookup_task tasks) := rfl
  rw [hts, count_filterMap]
  have hcong : ∀ a ∈ (topo_run tasks graph).result,
      ((lookup_task tasks a == some task) = true ↔ (a == task.target) = true) := by
    intro a _
    constructor
    · intro h
      have h2 : lookup_task tasks a = some task := by simpa using h
      obtain ⟨ht, -⟩ := lookup_task_target tasks a task h2
      simp [ht]
    · intro h
      have h2 : a = task.target := by simpa using h
      rw [h2, lookup_task_self tasks task hnodup hmem]
      simp
  rw [List.countP_congr hcong]
  exact List.count_eq_one_of_mem hres_nodup htmem

/-- C8 witness: the two-node cycle `{A: [B], B: [A]}` — no overflow and
each task exactly once in the order. -/
theorem claim_C8_witness :
    (topo_run [task_cycA, task_cycB] [("A", ["B"]), ("B", ["A"])]).overflow = false ∧
    (topological_sort [task_cycA, task_cycB]
      [("A", ["B"]), ("B", ["A"])]).count task_cycA = 1 ∧
    (topological_sort [task_cycA, task_cycB]
      [("A", ["B"]), ("B", ["A"])]).count task_cycB = 1 := by
  obtain ⟨h1, h2⟩ :=
    claim_C8 [task_cycA, task_cycB] [("A", ["B"]), ("B", ["A"])] (by decide)
  exact ⟨h1, h2 task_cycA (by decide), h2 task_cycB (by decide)⟩
